import Mathlib

/-!
Shallow embedding of the mcp-rag-server repository (TypeScript) and proofs
about the claims C1-C10.  Numbers that are IEEE doubles in the source are
modelled as rationals; JS strings are modelled as Lean `String`s.
-/

namespace McpRag

/-! ## Weight manager (packages/mcp-server/src/weights.ts) -/

/-- JS `Math.max` on two (non-NaN) numbers. -/
def qmax (a b : ℚ) : ℚ := if a < b then b else a

/-- JS `Math.min` on two (non-NaN) numbers. -/
def qmin (a b : ℚ) : ℚ := if a < b then a else b

/-- weights.ts `clamp01`: `Math.max(0, Math.min(1, x))`. -/
def clamp01 (x : ℚ) : ℚ := qmax 0 (qmin 1 x)

/-- weights.ts `Weights`: the four hybrid ranking weights. -/
structure Weights where
  semantic : ℚ
  lexical : ℚ
  graph : ℚ
  reranker : ℚ
deriving DecidableEq, Repr

/-- weights.ts `defaultWeights = { semantic: 0.6, lexical: 0.25, graph: 0.1, reranker: 0.05 }`. -/
def defaultWeights : Weights := ⟨6/10, 25/100, 1/10, 5/100⟩

/-- The two feedback kinds accepted by `WeightManager.feedback`. -/
inductive FbKind
  | up
  | down
deriving DecidableEq, Repr

/-- weights.ts line 32: `const delta = kind === 'up' ? 0.01 : -0.01`. -/
def fbDelta (kind : FbKind) : ℚ :=
  match kind with
  | .up => 1/100
  | .down => -(1/100)

/-- weights.ts line 34 before normalization:
`this.w.semantic = clamp01(this.w.semantic + delta)`. -/
def feedbackSemPre (w : Weights) (kind : FbKind) : ℚ :=
  clamp01 (w.semantic + fbDelta kind)

/-- weights.ts line 35 before normalization:
`this.w.lexical = clamp01(this.w.lexical + (kind === 'up' ? -delta/2 : +delta/2))`.
Note that `delta` itself is negative for `down`, so both branches subtract `0.005`. -/
def feedbackLexPre (w : Weights) (kind : FbKind) : ℚ :=
  clamp01 (w.lexical + (match kind with
    | .up => -(fbDelta .up) / 2
    | .down => (fbDelta .down) / 2))

/-- weights.ts line 37: the sum `s` of the four components right before the
final normalization. -/
def fbTotalPre (w : Weights) (kind : FbKind) : ℚ :=
  feedbackSemPre w kind + feedbackLexPre w kind + w.graph + w.reranker

/-- weights.ts `WeightManager.feedback` (lines 31-40): nudge semantic/lexical,
clamp both to `[0,1]`, then divide all four components by their sum. -/
def feedback (w : Weights) (kind : FbKind) : Weights :=
  ⟨feedbackSemPre w kind / fbTotalPre w kind,
   feedbackLexPre w kind / fbTotalPre w kind,
   w.graph / fbTotalPre w kind,
   w.reranker / fbTotalPre w kind⟩

/-- Applying a finite sequence of `feedback` events starting from the defaults
(the `WeightManager` state after construction with no weights file). -/
def applyFeedbacks (l : List FbKind) : Weights :=
  l.foldl feedback defaultWeights

/-- Sum of the four weight components. -/
def Weights.total (w : Weights) : ℚ :=
  w.semantic + w.lexical + w.graph + w.reranker

/-- Reachability invariant of the weight state: every component is nonnegative
and the (never directly nudged) `graph` component stays strictly positive. -/
def WInv (w : Weights) : Prop :=
  0 ≤ w.semantic ∧ 0 ≤ w.lexical ∧ 0 < w.graph ∧ 0 ≤ w.reranker

lemma clamp01_nonneg (x : ℚ) : 0 ≤ clamp01 x := by
  unfold clamp01 qmax qmin
  split_ifs <;> linarith

lemma clamp01_le_one (x : ℚ) : clamp01 x ≤ 1 := by
  unfold clamp01 qmax qmin
  split_ifs <;> linarith

lemma wInv_default : WInv defaultWeights := by
  refine ⟨?_, ?_, ?_, ?_⟩ <;> norm_num [defaultWeights]

lemma feedbackSemPre_nonneg (w : Weights) (kind : FbKind) : 0 ≤ feedbackSemPre w kind :=
  clamp01_nonneg _

lemma feedbackLexPre_nonneg (w : Weights) (kind : FbKind) : 0 ≤ feedbackLexPre w kind :=
  clamp01_nonneg _

lemma fbTotalPre_pos (w : Weights) (kind : FbKind) (hw : WInv w) :
    0 < fbTotalPre w kind := by
  obtain ⟨-, -, hg, hr⟩ := hw
  have h1 := feedbackSemPre_nonneg w kind
  have h2 := feedbackLexPre_nonneg w kind
  unfold fbTotalPre
  linarith

lemma wInv_feedback (w : Weights) (kind : FbKind) (hw : WInv w) :
    WInv (feedback w kind) := by
  have hpos := fbTotalPre_pos w kind hw
  obtain ⟨hs, hl, hg, hr⟩ := hw
  exact ⟨div_nonneg (feedbackSemPre_nonneg w kind) hpos.le,
    div_nonneg (feedbackLexPre_nonneg w kind) hpos.le,
    div_pos hg hpos,
    div_nonneg hr hpos.le⟩

lemma wInv_foldl (l : List FbKind) (w : Weights) (hw : WInv w) :
    WInv (l.foldl feedback w) := by
  induction l generalizing w with
  | nil => exact hw
  | cons k l ih => exact ih _ (wInv_feedback w k hw)

/-- After a `feedback` step from any invariant-satisfying state, the four
components sum to exactly 1 and each lies in `[0,1]`. -/
lemma feedback_normalized (w : Weights) (kind : FbKind) (hw : WInv w) :
    (feedback w kind).total = 1 ∧
      0 ≤ (feedback w kind).semantic ∧ (feedback w kind).semantic ≤ 1 ∧
      0 ≤ (feedback w kind).lexical ∧ (feedback w kind).lexical ≤ 1 ∧
      0 ≤ (feedback w kind).graph ∧ (feedback w kind).graph ≤ 1 ∧
      0 ≤ (feedback w kind).reranker ∧ (feedback w kind).reranker ≤ 1 := by
  have hpos := fbTotalPre_pos w kind hw
  obtain ⟨hs, hl, hg, hr⟩ := hw
  have h1 := feedbackSemPre_nonneg w kind
  have h2 := feedbackLexPre_nonneg w kind
  have htot : fbTotalPre w kind
      = feedbackSemPre w kind + feedbackLexPre w kind + w.graph + w.reranker := rfl
  constructor
  · show feedbackSemPre w kind / fbTotalPre w kind
        + feedbackLexPre w kind / fbTotalPre w kind
        + w.graph / fbTotalPre w kind
        + w.reranker / fbTotalPre w kind = 1
    rw [div_add_div_same, div_add_div_same, div_add_div_same, ← htot,
      div_self (ne_of_gt hpos)]
  refine ⟨div_nonneg h1 hpos.le, ?_, div_nonneg h2 hpos.le, ?_,
      div_nonneg hg.le hpos.le, ?_, div_nonneg hr hpos.le, ?_⟩ <;>
    · show _ / fbTotalPre w kind ≤ 1
      rw [div_le_one hpos, htot]
      linarith

lemma applyFeedbacks_normalized (l : List FbKind) :
    (applyFeedbacks l).total = 1 ∧
      0 ≤ (applyFeedbacks l).semantic ∧ (applyFeedbacks l).semantic ≤ 1 ∧
      0 ≤ (applyFeedbacks l).lexical ∧ (applyFeedbacks l).lexical ≤ 1 ∧
      0 ≤ (applyFeedbacks l).graph ∧ (applyFeedbacks l).graph ≤ 1 ∧
      0 ≤ (applyFeedbacks l).reranker ∧ (applyFeedbacks l).reranker ≤ 1 := by
  rcases List.eq_nil_or_concat l with rfl | ⟨L, k, rfl⟩
  · refine ⟨?_, ?_, ?_, ?_, ?_, ?_, ?_, ?_, ?_⟩ <;>
      norm_num [applyFeedbacks, defaultWeights, Weights.total]
  · have h : applyFeedbacks (L.concat k) = feedback (applyFeedbacks L) k := by
      simp [applyFeedbacks, List.concat_eq_append, List.foldl_append]
    rw [h]
    exact feedback_normalized _ _ (wInv_foldl L _ wInv_default)

/-- Claim C3: for every finite sequence of feedback events starting from the
default weights, the resulting `WeightManager` state has
`|semantic + lexical + graph + reranker - 1| < 1e-9` and every component in
`[0,1]`.  (Over the rational model the sum is exactly 1.) -/
theorem c3_feedback_preserves_normalization (l : List FbKind) :
    |(applyFeedbacks l).total - 1| < 1/1000000000 ∧
      0 ≤ (applyFeedbacks l).semantic ∧ (applyFeedbacks l).semantic ≤ 1 ∧
      0 ≤ (applyFeedbacks l).lexical ∧ (applyFeedbacks l).lexical ≤ 1 ∧
      0 ≤ (applyFeedbacks l).graph ∧ (applyFeedbacks l).graph ≤ 1 ∧
      0 ≤ (applyFeedbacks l).reranker ∧ (applyFeedbacks l).reranker ≤ 1 := by
  obtain ⟨htot, hrest⟩ := applyFeedbacks_normalized l
  exact ⟨by rw [htot]; norm_num, hrest⟩

/-- Claim C2, code-bug evidence: evaluating `feedback` at the default weights
with kind `down`.  The pre-normalization lexical weight is `0.245`: the code
DECREASES lexical by `0.005` on a 'down' event (both branches of the ternary
at weights.ts line 35 yield `-0.005` because `delta` is already negative),
whereas the claim — and the code's own comment "increase semantic on up,
lexical on down" — call for an increase by `0.005`.  The resulting persisted
state is `(118/197, 49/197, 20/197, 10/197)`. -/
theorem c2_feedback_down_decreases_lexical :
    feedbackLexPre defaultWeights .down = 49/200 ∧
      feedbackLexPre defaultWeights .down < defaultWeights.lexical ∧
      feedback defaultWeights .down = ⟨118/197, 49/197, 20/197, 10/197⟩ := by
  refine ⟨?_, ?_, ?_⟩ <;>
    norm_num [feedback, fbTotalPre, feedbackSemPre, feedbackLexPre, clamp01,
      qmax, qmin, defaultWeights, fbDelta, Weights.mk.injEq]

/-! ## JS string primitives, modelled over `List Char`

Core `String` functions such as `splitOn` are compiled via well-founded
recursion and do not reduce in the kernel, so the JS string operations used
by the ranker and the fallback engine are modelled structurally over the
underlying character lists. -/

/-- JS `String.prototype.toLowerCase` (ASCII-faithful via `Char.toLower`). -/
def lowerStr (s : String) : String := String.mk (s.data.map Char.toLower)

/-- A JS word character: the regex class `\w = [A-Za-z0-9_]`. -/
def isWordChar (c : Char) : Bool := c.isAlphanum || c = '_'

/-- Split a char list at every char satisfying `p`, keeping empty segments. -/
def splitCharsAux (p : Char → Bool) : List Char → List Char → List (List Char)
  | [], acc => [acc.reverse]
  | c :: cs, acc =>
    if p c then acc.reverse :: splitCharsAux p cs [] else splitCharsAux p cs (c :: acc)

/-- JS `String.prototype.split` with a single-char-class regex. -/
def splitChars (p : Char → Bool) (l : List Char) : List (List Char) :=
  splitCharsAux p l []

/-- ranker.ts line 42: `query.toLowerCase().split(/\W+/).filter(Boolean)`.
Splitting at every separator char and dropping the empty segments equals
splitting on separator runs and dropping empties. -/
def queryTokens (query : String) : List (List Char) :=
  (splitChars (fun c => !isWordChar c) (query.data.map Char.toLower)).filter (· ≠ [])

/-- JS `String.prototype.includes`: `pat` occurs as a contiguous segment of
`hay`. -/
def includesSeg : List Char → List Char → Bool
  | [], pat => pat.isEmpty
  | c :: t, pat => pat.isPrefixOf (c :: t) || includesSeg t pat

/-! ## Ranker (packages/mcp-server/src/ranker.ts) -/

/-- shared `SearchResult` extended with ranker.ts `RerankableResult`'s
optional `rerankerScore`. -/
structure RerankableResult where
  file : String
  symbol : String
  startLine : Nat
  endLine : Nat
  score : ℚ
  snippet : String
  rerankerScore : Option ℚ
deriving DecidableEq, Repr

/-- ranker.ts lines 43-51: the degree map — `maxDeg` starts at 1 and is bumped
to any larger degree among the result files (only when a `fileDegree` callback
was supplied). -/
def maxDegree (degOf : Option (String → Nat)) (results : List RerankableResult) : Nat :=
  match degOf with
  | none => 1
  | some f => results.foldl (fun m r => if f r.file > m then f r.file else m) 1

/-- ranker.ts lines 53-66: compute the per-candidate signals and the composite
score (the body of the `map` inside `rank_hybrid`). -/
def scoreResult (w : Weights) (tokens : List (List Char)) (degOf : Option (String → Nat))
    (maxDeg : Nat) (r : RerankableResult) : RerankableResult :=
  let snippetLower := r.snippet.data.map Char.toLower
  let hits := (tokens.filter (fun t => includesSeg snippetLower t)).length
  let lexical : ℚ := if tokens.length = 0 then 0 else (hits : ℚ) / (tokens.length : ℚ)
  let graph : ℚ :=
    match degOf with
    | none => 0
    | some f => (f r.file : ℚ) / (maxDeg : ℚ)
  let semantic := r.score
  let reranker := r.rerankerScore.getD semantic
  { r with
    score := semantic * w.semantic + lexical * w.lexical
      + graph * w.graph + reranker * w.reranker,
    rerankerScore := some (r.rerankerScore.getD reranker) }

/-- Stable insertion step for a descending sort keyed by `key`: the element
being inserted comes earlier in the input than everything already sorted, so
on an equal key it goes first. -/
def insertDescBy {α β : Type} [LinearOrder β] (key : α → β) (x : α) :
    List α → List α
  | [] => [x]
  | y :: ys => if key y ≤ key x then x :: y :: ys else y :: insertDescBy key x ys

/-- JS `Array.prototype.sort` with comparator `(a, b) => key(b) - key(a)`:
a stable descending sort (ES2019 guarantees sort stability). -/
def sortDescBy {α β : Type} [LinearOrder β] (key : α → β) : List α → List α
  | [] => []
  | x :: xs => insertDescBy key x (sortDescBy key xs)

/-- ranker.ts `rank_hybrid` (lines 37-69).  The module-level `weights`
variable is passed explicitly as `w`. -/
def rank_hybrid (w : Weights) (results : List RerankableResult) (query : String)
    (degOf : Option (String → Nat)) : List RerankableResult :=
  let tokens := queryTokens query
  let maxDeg := maxDegree degOf results
  sortDescBy (fun r => r.score) (results.map (scoreResult w tokens degOf maxDeg))

section SortLemmas

variable {α β : Type} [LinearOrder β] (key : α → β)

lemma mem_insertDescBy {x z : α} {l : List α} :
    z ∈ insertDescBy key x l ↔ z = x ∨ z ∈ l := by
  induction l with
  | nil => simp [insertDescBy]
  | cons y ys ih =>
    unfold insertDescBy
    split
    · simp [List.mem_cons]
    · simp only [List.mem_cons, ih]
      tauto

lemma perm_insertDescBy (x : α) (l : List α) :
    (insertDescBy key x l).Perm (x :: l) := by
  induction l with
  | nil => simp [insertDescBy]
  | cons y ys ih =>
    unfold insertDescBy
    split
    · exact List.Perm.refl _
    · exact (ih.cons y).trans (List.Perm.swap x y ys)

lemma sortDescBy_perm (l : List α) : (sortDescBy key l).Perm l := by
  induction l with
  | nil => exact List.Perm.refl _
  | cons x xs ih =>
    exact (perm_insertDescBy key x (sortDescBy key xs)).trans (ih.cons x)

lemma sortDescBy_length (l : List α) : (sortDescBy key l).length = l.length :=
  (sortDescBy_perm key l).length_eq

lemma pairwise_insertDescBy {x : α} {l : List α}
    (h : l.Pairwise (fun a b => key b ≤ key a)) :
    (insertDescBy key x l).Pairwise (fun a b => key b ≤ key a) := by
  induction l with
  | nil => simp [insertDescBy]
  | cons y ys ih =>
    rcases List.pairwise_cons.mp h with ⟨hy, hys⟩
    unfold insertDescBy
    split
    · rename_i hxy
      refine List.pairwise_cons.mpr ⟨?_, h⟩
      intro z hz
      rcases List.mem_cons.mp hz with rfl | hz
      · exact hxy
      · exact le_trans (hy z hz) hxy
    · rename_i hxy
      refine List.pairwise_cons.mpr ⟨?_, ih hys⟩
      intro z hz
      rcases (mem_insertDescBy key).mp hz with rfl | hz
      · exact le_of_lt (lt_of_not_le hxy)
      · exact hy z hz

lemma sortDescBy_pairwise (l : List α) :
    (sortDescBy key l).Pairwise (fun a b => key b ≤ key a) := by
  induction l with
  | nil => simp [sortDescBy]
  | cons x xs ih => exact pairwise_insertDescBy key ih

lemma filter_insertDescBy_of_eq {x : α} {c : β} (hx : key x = c) (l : List α) :
    (insertDescBy key x l).filter (fun z => decide (key z = c))
      = x :: l.filter (fun z => decide (key z = c)) := by
  induction l with
  | nil => simp [insertDescBy, hx]
  | cons y ys ih =>
    unfold insertDescBy
    split
    · simp [List.filter_cons, hx]
    · rename_i hxy
      have hyc : ¬ (key y = c) := by
        intro hyc
        exact hxy (le_of_eq (hyc.trans hx.symm))
      simp [List.filter_cons, hyc, ih]

lemma filter_insertDescBy_of_ne {x : α} {c : β} (hx : ¬ key x = c) (l : List α) :
    (insertDescBy key x l).filter (fun z => decide (key z = c))
      = l.filter (fun z => decide (key z = c)) := by
  induction l with
  | nil => simp [insertDescBy, hx]
  | cons y ys ih =>
    unfold insertDescBy
    split
    · simp [List.filter_cons, hx]
    · simp [List.filter_cons, ih]

/-- Stability of the descending sort: for every key value `c`, the sublist of
elements whose key equals `c` is unchanged — equal-key elements keep their
input order. -/
lemma filter_sortDescBy (c : β) (l : List α) :
    (sortDescBy key l).filter (fun z => decide (key z = c))
      = l.filter (fun z => decide (key z = c)) := by
  induction l with
  | nil => rfl
  | cons x xs ih =>
    show (insertDescBy key x (sortDescBy key xs)).filter _ = _
    by_cases hx : key x = c
    · rw [filter_insertDescBy_of_eq key hx, ih, List.filter_cons]
      simp [hx]
    · rw [filter_insertDescBy_of_ne key hx, ih, List.filter_cons]
      simp [hx]

end SortLemmas

/-- Claim C4, counterexample: two candidates with equal composite score (and
equal original semantic score `1/2`) on files `"b"` and `"a"`.  The claim's
tie-breaking (semantic, then file, then startLine) would put file `"a"`
first; `rank_hybrid` keeps the input order `["b", "a"]` because
`sort((a, b) => b.score - a.score)` has no tie-breaker beyond stability. -/
theorem c4_rank_hybrid_no_file_tiebreak :
    ((rank_hybrid defaultWeights
        [⟨"b", "s", 1, 1, 1/2, "", none⟩, ⟨"a", "s", 1, 1, 1/2, "", none⟩]
        "" none).map (fun r => r.file)) = ["b", "a"] ∧
      ((rank_hybrid defaultWeights
        [⟨"b", "s", 1, 1, 1/2, "", none⟩, ⟨"a", "s", 1, 1, 1/2, "", none⟩]
        "" none).map (fun r => r.score)) = [13/40, 13/40] := by
  have ht : queryTokens "" = [] := by decide
  constructor <;>
    norm_num [rank_hybrid, ht, maxDegree, scoreResult, sortDescBy, insertDescBy,
      defaultWeights]

/-- Claim C4 (amended): `rank_hybrid` sorts the scored candidates by composite
score `Σ weights[k]·signal[k]` in descending order; the sort is stable, so
candidates with equal composite score keep their input order — there is no
further tie-breaking by original semantic score, file, or startLine. -/
theorem c4_rank_hybrid_descending_stable (w : Weights) (results : List RerankableResult)
    (query : String) (degOf : Option (String → Nat)) :
    (rank_hybrid w results query degOf).Pairwise (fun a b => b.score ≤ a.score) ∧
      (rank_hybrid w results query degOf).Perm
        (results.map (scoreResult w (queryTokens query) degOf (maxDegree degOf results))) ∧
      ∀ c : ℚ, (rank_hybrid w results query degOf).filter (fun r => decide (r.score = c))
        = (results.map (scoreResult w (queryTokens query) degOf
            (maxDegree degOf results))).filter (fun r => decide (r.score = c)) := by
  refine ⟨?_, ?_, fun c => ?_⟩
  · exact sortDescBy_pairwise _ _
  · exact sortDescBy_perm _ _
  · exact filter_sortDescBy _ c _

/-! ## Context packing (ranker.ts `pack_tokens`, lines 71-143) -/

/-- ranker.ts `tokenEstimate`: `Math.max(1, Math.ceil(text.length / charsPerToken))`
(for `charsPerToken ≥ 1`; the config default is 4). -/
def tokenEstimate (text : String) (cpt : Nat) : Nat :=
  max 1 ((text.length + cpt - 1) / cpt)

/-- ranker.ts `similarity`: Jaccard index of the lowercase word-token sets of
two snippets, with `union || 1` guarding the empty case. -/
def mmrSimilarity (a b : String) : ℚ :=
  let tokensA := ((splitChars (fun c => !isWordChar c) (a.data.map Char.toLower)).filter
    (· ≠ [])).dedup
  let tokensB := ((splitChars (fun c => !isWordChar c) (b.data.map Char.toLower)).filter
    (· ≠ [])).dedup
  let inter := (tokensA.filter (fun t => t ∈ tokensB)).length
  let union := ((tokensA ++ tokensB).dedup).length
  (inter : ℚ) / ((if union = 0 then 1 else union : Nat) : ℚ)

/-- JS `Math.max(...list)` for a nonempty list (the code guards emptiness). -/
def qMaxList : List ℚ → ℚ
  | [] => 0
  | x :: xs => xs.foldl qmax x

/-- ranker.ts lines 98-105: one step of the first greedy pass.  State:
`(selected, used, usedFiles)`. -/
def greedyStep (cpt budget : Nat) (st : List RerankableResult × Nat × List String)
    (r : RerankableResult) : List RerankableResult × Nat × List String :=
  let cost := tokenEstimate r.snippet cpt
  if budget < st.2.1 + cost then st
  else if r.file ∈ st.2.2 then st
  else (st.1 ++ [r], st.2.1 + cost, st.2.2 ++ [r.file])

/-- ranker.ts lines 106-114: one step of the second greedy pass (fills the
remaining budget ignoring the one-per-file rule).  JS `selected.includes(r)`
compares object identity; structural equality only differs when the input
carries structurally-equal duplicates. -/
def greedyStep2 (cpt budget : Nat) (st : List RerankableResult × Nat)
    (r : RerankableResult) : List RerankableResult × Nat :=
  if r ∈ st.1 then st
  else
    let cost := tokenEstimate r.snippet cpt
    if budget < st.2 + cost then st
    else (st.1 ++ [r], st.2 + cost)

/-- ranker.ts lines 125-135: index of the first candidate maximizing the MMR
score (`bestScore` starts at `-Infinity`, so the first element always wins the
first comparison, and only strictly greater scores replace it). -/
def bestIdxAux (f : RerankableResult → ℚ) :
    List RerankableResult → Nat → ℚ → Nat → Nat
  | [], _, _, bi => bi
  | r :: rs, i, bs, bi =>
    if f r > bs then bestIdxAux f rs (i + 1) (f r) i else bestIdxAux f rs (i + 1) bs bi

/-- Index of the MMR-best candidate of a nonempty list. -/
def bestMmrIdx (f : RerankableResult → ℚ) : List RerankableResult → Nat
  | [] => 0
  | r :: rs => bestIdxAux f rs 1 (f r) 0

/-- ranker.ts lines 118-141: the MMR selection loop.  Every iteration splices
exactly one element out of `remaining`, so running it with fuel
`remaining.length` is exact: the fuel reaches 0 precisely when `remaining`
is empty. -/
def mmrLoop (cpt : Nat) (lam : ℚ) :
    Nat → List RerankableResult → List RerankableResult → Nat → List RerankableResult
  | 0, _, chosen, _ => chosen
  | fuel + 1, remaining, chosen, budget =>
    if remaining.isEmpty || budget = 0 then chosen
    else
      let f := fun cand => lam * cand.score - (1 - lam) *
        (if chosen.isEmpty then 0
         else qMaxList (chosen.map (fun c => mmrSimilarity cand.snippet c.snippet)))
      let i := bestMmrIdx f remaining
      match remaining[i]? with
      | none => chosen
      | some picked =>
        let rest := remaining.eraseIdx i
        let cost := tokenEstimate picked.snippet cpt
        if budget < cost then mmrLoop cpt lam fuel rest chosen budget
        else mmrLoop cpt lam fuel rest (chosen ++ [picked]) (budget - cost)

/-- ranker.ts `pack_tokens`: greedy-with-per-file-diversity strategy by
default, MMR strategy when `options.useMMR`. -/
def pack_tokens (results : List RerankableResult) (budget : Nat)
    (cpt : Nat) (useMMR : Bool) (lam : ℚ) : List RerankableResult :=
  if useMMR = false then
    let st1 := results.foldl (greedyStep cpt budget) ([], 0, [])
    if st1.2.1 < budget then (results.foldl (greedyStep2 cpt budget) (st1.1, st1.2.1)).1
    else st1.1
  else
    mmrLoop cpt lam results.length results [] budget

/-! ## Context profiler (context_profiler.ts, src/unnamed/part_004) -/

/-- context_profiler.ts `ContextProfile` (the intent is kept as its name). -/
structure ContextProfile where
  intent : String
  tokenBudget : Nat
  requestedTopK : Nat
  effectiveTopK : Nat
  notes : List String

/-- Case-insensitive literal-substring test against an already-lowercased
char list (the regexes in `KEYWORDS` are `/i`-flagged literals, except the
two classes handled below). -/
def ciHas (q : List Char) (pat : String) : Bool :=
  includesSeg q pat.data

/-- The regex `/data[\s-]?flow/i`: "dataflow" or "data" and "flow" joined by
one whitespace char or a dash (common ASCII whitespace modelled). -/
def dataflowRe (q : List Char) : Bool :=
  includesSeg q "dataflow".data ||
    ([' ', '\t', '\n', '\r'] ++ ['-']).any
      (fun c => includesSeg q ("data".data ++ c :: "flow".data))

/-- One entry of context_profiler.ts `KEYWORDS`. -/
structure KeywordPreset where
  intent : String
  isMatch : List Char → Bool
  budget : Nat
  topK : Nat
  note : String

/-- context_profiler.ts `KEYWORDS` (lines 11-47), in declaration order. -/
def keywordPresets : List KeywordPreset :=
  [⟨"refactor",
    fun q => ciHas q "refactor" || ciHas q "rename" || ciHas q "cleanup" ||
      ciHas q "architecture",
    1400, 8, "Refactor intent detected; widen snippet allocation."⟩,
   ⟨"dataflow",
    fun q => dataflowRe q || ciHas q "dependency" || ciHas q "graph" ||
      ciHas q "call tree" || ciHas q "topolog",
    1300, 7, "Dataflow intent; prioritize dependency graph context."⟩,
   ⟨"test",
    fun q => ciHas q "test" || ciHas q "assert" || ciHas q "coverage" || ciHas q "unit",
    900, 6, "Testing intent; focus on functions and call sites."⟩,
   ⟨"performance",
    fun q => ciHas q "perf" || ciHas q "performance" || ciHas q "slow" ||
      ciHas q "latenc" || ciHas q "optimise" || ciHas q "optimize",
    1100, 7, "Performance audit; include dependency graph context."⟩,
   ⟨"docs",
    fun q => ciHas q "doc" || ciHas q "explain" || ciHas q "usage" || ciHas q "readme",
    700, 5, "Docs intent; concise summaries are sufficient."⟩]

/-- A JS-whitespace character as stripped by `String.prototype.trim`
(common ASCII cases). -/
def isJsWs (c : Char) : Bool :=
  c = ' ' || c = '\t' || c = '\n' || c = '\r' || c = '\x0b' || c = '\x0c'

/-- JS `String.prototype.trim` over the char list. -/
def trimChars (l : List Char) : List Char :=
  ((l.dropWhile isJsWs).reverse.dropWhile isJsWs).reverse

/-- context_profiler.ts `profileContext` (lines 49-69): first matching keyword
preset wins; `requestedTopK || preset` treats 0 as absent. -/
def profileContext (query : String) (requestedTopK : Nat) : ContextProfile :=
  let t := (trimChars query.data).map Char.toLower
  match keywordPresets.find? (fun c => c.isMatch t) with
  | some c =>
    ⟨c.intent, c.budget, requestedTopK,
      max 1 (min c.topK (if requestedTopK = 0 then c.topK else requestedTopK)),
      [c.note]⟩
  | none =>
    ⟨"general", 600, requestedTopK,
      max 1 (min (if requestedTopK = 0 then 5 else requestedTopK) 5),
      ["General search; apply balanced context selection."]⟩

lemma profileContext_effectiveTopK_pos (query : String) (k : Nat) :
    1 ≤ (profileContext query k).effectiveTopK := by
  unfold profileContext
  rcases h : keywordPresets.find?
      (fun c => c.isMatch ((trimChars query.data).map Char.toLower)) with _ | c <;>
    · simp only [h]
      omega

lemma profileContext_effectiveTopK_le (query : String) (k : Nat) (hk : 1 ≤ k) :
    (profileContext query k).effectiveTopK ≤ k := by
  have hk0 : ¬ k = 0 := by omega
  unfold profileContext
  rcases h : keywordPresets.find?
      (fun c => c.isMatch ((trimChars query.data).map Char.toLower)) with _ | c <;>
    · simp [h, hk0]
      omega

/-! ## Orchestrator (src/unnamed/part_003, `Orchestrator.searchCode`) -/

/-- part_003 `rerankIfEnabled` (lines 79-96): with no reranker configured the
candidates pass through unchanged; otherwise each candidate whose
`file:symbol:startLine:endLine` key received a score gets `rerankerScore`
set.  The `catch` returning `initial` is subsumed by the `none` case. -/
def rerankApply (scores : Option (String → Option ℚ))
    (initial : List RerankableResult) : List RerankableResult :=
  match scores with
  | none => initial
  | some f =>
    initial.map (fun r =>
      match f (r.file ++ ":" ++ r.symbol ++ ":" ++ toString r.startLine ++ ":"
          ++ toString r.endLine) with
      | some s => { r with rerankerScore := some s }
      | none => r)

/-- part_003 `Orchestrator.searchCode` (lines 98-117).  The engine fetch is
supplied as the already-parsed `engineResults`; the graph store's `degree`,
the reranker scores and the chunking/diversity config are parameters.  (The
call `profileContext(query, topK, …windowTokenLimit)` passes a third argument
that the two-parameter `profileContext` ignores.) -/
def searchCode (w : Weights) (degOf : Option (String → Nat))
    (rerank : Option (String → Option ℚ)) (useMMR : Bool) (lam : ℚ) (cpt : Nat)
    (engineResults : List RerankableResult) (query : String) (topK : Nat) :
    List RerankableResult :=
  let profile := profileContext query topK
  let withReranker := rerankApply rerank engineResults
  let ranked := rank_hybrid w withReranker query degOf
  let curated0 := pack_tokens ranked profile.tokenBudget cpt useMMR lam
  let curated1 :=
    if curated0.length = 0 then ranked.take (max 1 profile.effectiveTopK) else curated0
  if profile.effectiveTopK < curated1.length then curated1.take profile.effectiveTopK
  else curated1

lemma rerankApply_length (scores : Option (String → Option ℚ))
    (l : List RerankableResult) : (rerankApply scores l).length = l.length := by
  cases scores <;> simp [rerankApply]

lemma rank_hybrid_length (w : Weights) (l : List RerankableResult) (q : String)
    (d : Option (String → Nat)) : (rank_hybrid w l q d).length = l.length := by
  unfold rank_hybrid
  rw [sortDescBy_length, List.length_map]

lemma pack_tokens_nil (b cpt : Nat) (m : Bool) (lam : ℚ) :
    pack_tokens [] b cpt m lam = [] := by
  cases m <;> simp [pack_tokens, mmrLoop]

/-- The final clamp of `searchCode`:
`if (curated.length > eff) curated = curated.slice(0, eff)`. -/
lemma clampStep_bounds (eff : Nat) (heff : 1 ≤ eff) (l : List RerankableResult)
    (hl : l ≠ []) :
    (if eff < l.length then l.take eff else l) ≠ [] ∧
      (if eff < l.length then l.take eff else l).length ≤ eff := by
  split
  · refine ⟨?_, ?_⟩
    · rw [Ne, List.take_eq_nil_iff]
      push_neg
      exact ⟨by omega, hl⟩
    · rw [List.length_take]
      omega
  · exact ⟨hl, by omega⟩

/-- Claim C1: for every query `q` and requested `topK = k ≥ 1`,
`searchCode` returns a non-empty list of length at most `effectiveTopK` when
the semantic engine returned at least one candidate, with
`effectiveTopK ≤ k`; when the engine returned no candidates the result is
empty. -/
theorem c1_searchCode_bounds (w : Weights) (degOf : Option (String → Nat))
    (rerank : Option (String → Option ℚ)) (useMMR : Bool) (lam : ℚ) (cpt : Nat)
    (engineResults : List RerankableResult) (query : String) (k : Nat)
    (hk : 1 ≤ k) :
    (profileContext query k).effectiveTopK ≤ k ∧
      (engineResults ≠ [] →
        searchCode w degOf rerank useMMR lam cpt engineResults query k ≠ [] ∧
          (searchCode w degOf rerank useMMR lam cpt engineResults query k).length
            ≤ (profileContext query k).effectiveTopK) ∧
      (engineResults = [] →
        searchCode w degOf rerank useMMR lam cpt engineResults query k = []) := by
  refine ⟨profileContext_effectiveTopK_le query k hk, ?_, ?_⟩
  · intro hne
    have heff := profileContext_effectiveTopK_pos query k
    have hrlen : (rank_hybrid w (rerankApply rerank engineResults) query degOf).length
        = engineResults.length := by
      rw [rank_hybrid_length, rerankApply_length]
    have hrne : rank_hybrid w (rerankApply rerank engineResults) query degOf ≠ [] := by
      intro h0
      exact hne (List.length_eq_zero.mp (by rw [← hrlen, h0]; rfl))
    show (if (profileContext query k).effectiveTopK < _ then _ else _) ≠ [] ∧ _
    by_cases h0 :
        (pack_tokens (rank_hybrid w (rerankApply rerank engineResults) query degOf)
          (profileContext query k).tokenBudget cpt useMMR lam).length = 0
    · simp only [searchCode, h0, if_pos]
      refine clampStep_bounds _ heff _ ?_
      rw [Ne, List.take_eq_nil_iff]
      push_neg
      exact ⟨by omega, hrne⟩
    · simp only [searchCode, h0, if_neg, if_false]
      refine clampStep_bounds _ heff _ ?_
      intro hnil
      exact h0 (by rw [hnil]; rfl)
  · intro he
    subst he
    have h1 : rerankApply rerank ([] : List RerankableResult) = [] := by
      cases rerank <;> rfl
    simp [searchCode, h1, rank_hybrid, sortDescBy, pack_tokens_nil]

/-- Claim C1 witness: a concrete instantiation — one engine candidate, query
`"x"`, `topK = 3` — discharging the hypotheses of the theorem. -/
theorem c1_searchCode_bounds_witness :
    (1 : Nat) ≤ 3 ∧
      searchCode defaultWeights none none false (3/10) 4
          [⟨"a", "s", 1, 1, 1/2, "hi", none⟩] "x" 3 ≠ [] ∧
        (searchCode defaultWeights none none false (3/10) 4
          [⟨"a", "s", 1, 1, 1/2, "hi", none⟩] "x" 3).length
          ≤ (profileContext "x" 3).effectiveTopK := by
  refine ⟨by norm_num, ?_⟩
  have h := c1_searchCode_bounds defaultWeights none none false (3/10) 4
    [⟨"a", "s", 1, 1, 1/2, "hi", none⟩] "x" 3 (by norm_num)
  exact h.2.1 (by simp)

/-! ## Policy filter (packages/mcp-server/src/index_cli.ts `allowPath`) -/

/-- Outcome of `fs.statSync(p)`: the file size on success, or a thrown error
(e.g. ENOENT for a missing file). -/
inductive StatOutcome
  | ok (size : Nat)
  | err
deriving DecidableEq, Repr

/-- `path.basename(p)` for forward-slash paths without trailing separators
(all keys are repo-relative forward-slash-normalized). -/
def basenameOf (p : String) : String :=
  String.mk ((splitChars (fun c => c = '/') p.data).getLastD [])

/-- The reserved secret extensions of index_cli.ts line 25, checked on the
lower-cased basename. -/
def secretExt (b : List Char) : Bool :=
  ".env".data.isSuffixOf b || ".key".data.isSuffixOf b || ".pem".data.isSuffixOf b

/-- index_cli.ts `allowPath` (lines 23-33), with the stat outcome supplied
explicitly.  A stat failure is swallowed by the empty `catch` (`// ignore`)
and the function falls through to `return true`. -/
def allowPath (p : String) (stat : StatOutcome) : Bool :=
  if secretExt ((basenameOf p).data.map Char.toLower) then false
  else
    match stat with
    | .ok size => if 50 * 1024 * 1024 < size then false else true
    | .err => true

/-- Claim C6, counterexample: `allowPath` on a path whose stat fails (a
missing file) returns `true` — the stat error is ignored — so a missing path
is allowed, not denied as the claim states. -/
theorem c6_allowPath_missing_file_is_allowed :
    allowPath "missing.ts" StatOutcome.err = true := by decide

/-- Claim C6 (amended): for every path whose stat fails (the file does not
exist), `allowPath` returns `true` — i.e. allows the path — unless the
lower-cased basename ends in a reserved secret extension.  Stat errors are
swallowed, so missing files are never denied for their size or existence. -/
theorem c6_allowPath_stat_error_allows (p : String)
    (h : secretExt ((basenameOf p).data.map Char.toLower) = false) :
    allowPath p StatOutcome.err = true := by
  unfold allowPath
  rw [h]
  rfl

/-- Claim C6 witness: the amended theorem applied at the concrete missing
path `"src/deleted_file.ts"`. -/
theorem c6_allowPath_stat_error_allows_witness :
    secretExt ((basenameOf "src/deleted_file.ts").data.map Char.toLower) = false ∧
      allowPath "src/deleted_file.ts" StatOutcome.err = true :=
  ⟨by decide, c6_allowPath_stat_error_allows "src/deleted_file.ts" (by decide)⟩

/-! ## Indexer chunking (packages/mcp-server/src/indexer.ts `chunkByTokens`,
lines 115-153).  The per-line token estimator is the same
`max(1, ceil(len / charsPerToken))` as ranker.ts `tokenEstimate`. -/

/-- One emitted chunk (`end` is a Lean keyword, so the field is `stop`). -/
structure Chunk where
  text : String
  start : Nat
  stop : Nat
deriving DecidableEq, Repr

/-- indexer.ts lines 127-131: the inner while loop.  Given the lines from
position `idx` on and the running `tokenSum`, returns how many lines the loop
consumes, i.e. `end - idx`. -/
def scanLen (cpt maxTokens : Nat) : List String → Nat → Nat
  | [], _ => 0
  | s :: rest, tokenSum =>
    if tokenSum + tokenEstimate s cpt ≤ maxTokens then
      1 + scanLen cpt maxTokens rest (tokenSum + tokenEstimate s cpt)
    else 0

lemma scanLen_le (cpt maxTokens : Nat) :
    ∀ (l : List String) (t : Nat), scanLen cpt maxTokens l t ≤ l.length := by
  intro l
  induction l with
  | nil => intro t; simp [scanLen]
  | cons s rest ih =>
    intro t
    unfold scanLen
    split
    · have := ih (t + tokenEstimate s cpt)
      simpa using by omega
    · simp

/-- indexer.ts lines 140-145: the overlap backoff loop.  Given the chunk's
lines reversed (so the head is `lines[end-1]`) and the running `overlap`,
returns how many lines the loop steps back over, i.e. `end - back`.  The
guard `back > idx` is the list running out. -/
def backSteps (cpt overlapTokens : Nat) : List String → Nat → Nat
  | [], _ => 0
  | s :: rest, overlap =>
    if overlap < overlapTokens then
      1 + backSteps cpt overlapTokens rest (overlap + tokenEstimate s cpt)
    else 0

/-- The `(end, nextIdx)` pair computed by one iteration of the outer loop of
`chunkByTokens`: the forced progress `if (end === idx) end = idx + 1`, and
the overlap backoff with its `back <= idx ? end : back` fallback. -/
def chunkNext (cpt maxTokens overlapTokens : Nat) (lines : List String) (idx : Nat) :
    Nat × Nat :=
  let e0 := idx + scanLen cpt maxTokens (lines.drop idx) 0
  let e := if e0 = idx then idx + 1 else e0
  let nextIdx :=
    if 0 < overlapTokens then
      let back := e - backSteps cpt overlapTokens
        (((lines.drop idx).take (e - idx)).reverse) 0
      if back ≤ idx then e else back
    else e
  (e, nextIdx)

lemma chunkNext_fst_gt (cpt maxTokens overlapTokens : Nat) (lines : List String)
    (idx : Nat) : idx < (chunkNext cpt maxTokens overlapTokens lines idx).1 := by
  unfold chunkNext
  dsimp only
  split_ifs <;> omega

lemma chunkNext_snd_gt (cpt maxTokens overlapTokens : Nat) (lines : List String)
    (idx : Nat) : idx < (chunkNext cpt maxTokens overlapTokens lines idx).2 := by
  unfold chunkNext
  dsimp only
  split_ifs <;> omega

/-- indexer.ts lines 124-151: the outer `while (idx < lines.length)` loop.
Lean accepts the recursion because `nextIdx` strictly exceeds `idx`
(`chunkNext_snd_gt`) — exactly the claimed "each iteration advances the start
index by at least one line". -/
def chunkGo (startLine maxTokens overlapTokens cpt : Nat) (lines : List String)
    (idx : Nat) : List Chunk :=
  if h : idx < lines.length then
    let en := chunkNext cpt maxTokens overlapTokens lines idx
    ⟨String.intercalate "\n" ((lines.drop idx).take (en.1 - idx)),
      startLine + idx, startLine + en.1 - 1⟩
      :: chunkGo startLine maxTokens overlapTokens cpt lines en.2
  else []
termination_by lines.length - idx
decreasing_by
  have := chunkNext_snd_gt cpt maxTokens overlapTokens lines idx
  omega

/-- indexer.ts `chunkByTokens` (lines 115-153). -/
def chunkByTokens (lines : List String) (startLine maxTokens overlapTokens cpt : Nat) :
    List Chunk :=
  chunkGo startLine maxTokens overlapTokens cpt lines 0

lemma chunkGo_mem_start_lb (startLine maxTokens overlapTokens cpt : Nat)
    (lines : List String) :
    ∀ (n idx : Nat), lines.length - idx ≤ n →
      ∀ c ∈ chunkGo startLine maxTokens overlapTokens cpt lines idx,
        startLine + idx ≤ c.start := by
  intro n
  induction n with
  | zero =>
    intro idx hle c hc
    unfold chunkGo at hc
    rw [dif_neg (by omega)] at hc
    cases hc
  | succ n ih =>
    intro idx hle c hc
    unfold chunkGo at hc
    by_cases h : idx < lines.length
    · rw [dif_pos h] at hc
      rcases List.mem_cons.mp hc with rfl | hc'
      · exact Nat.le_refl _
      · have hgt := chunkNext_snd_gt cpt maxTokens overlapTokens lines idx
        have := ih (chunkNext cpt maxTokens overlapTokens lines idx).2 (by omega) c hc'
        omega
    · rw [dif_neg h] at hc
      cases hc

lemma chunkGo_start_chain (startLine maxTokens overlapTokens cpt : Nat)
    (lines : List String) :
    ∀ (n idx : Nat), lines.length - idx ≤ n →
      List.Chain' (fun a b => a.start < b.start)
        (chunkGo startLine maxTokens overlapTokens cpt lines idx) := by
  intro n
  induction n with
  | zero =>
    intro idx hle
    unfold chunkGo
    rw [dif_neg (by omega)]
    exact List.chain'_nil
  | succ n ih =>
    intro idx hle
    unfold chunkGo
    by_cases h : idx < lines.length
    · rw [dif_pos h]
      refine List.chain'_cons'.mpr ⟨?_, ih _ (by
        have := chunkNext_snd_gt cpt maxTokens overlapTokens lines idx
        omega)⟩
      intro y hy
      have hymem : y ∈ chunkGo startLine maxTokens overlapTokens cpt lines
          (chunkNext cpt maxTokens overlapTokens lines idx).2 :=
        List.mem_of_mem_head? hy
      have hlb := chunkGo_mem_start_lb startLine maxTokens overlapTokens cpt lines
        (lines.length) (chunkNext cpt maxTokens overlapTokens lines idx).2
        (by omega) y hymem
      have hgt := chunkNext_snd_gt cpt maxTokens overlapTokens lines idx
      show (⟨_, startLine + idx, _⟩ : Chunk).start < y.start
      dsimp only
      omega
    · rw [dif_neg h]
      exact List.chain'_nil

/-- Claim C9: for every non-empty list of lines and `charsPerToken ≥ 1`,
`chunkByTokens` terminates (the recursion is accepted with measure
`lines.length - idx`, justified by `chunkNext_snd_gt`), produces at least one
chunk, and every produced chunk starts strictly after the previous chunk's
start line. -/
theorem c9_chunkByTokens_advances (lines : List String)
    (startLine maxTokens overlapTokens cpt : Nat)
    (hne : lines ≠ []) (_hcpt : 1 ≤ cpt) :
    chunkByTokens lines startLine maxTokens overlapTokens cpt ≠ [] ∧
      List.Chain' (fun a b => a.start < b.start)
        (chunkByTokens lines startLine maxTokens overlapTokens cpt) := by
  constructor
  · unfold chunkByTokens chunkGo
    rw [dif_pos (by cases lines with
      | nil => exact absurd rfl hne
      | cons a l => simp)]
    exact List.cons_ne_nil _ _
  · exact chunkGo_start_chain startLine maxTokens overlapTokens cpt lines
      lines.length 0 (by omega)

/-- Claim C9 witness: the theorem applied to the concrete two-line snippet
`["const a = 1;", "const b = 2;"]` with `chunkTokenLimit = 2`,
`overlapTokens = 1`, `charsPerToken = 4`. -/
theorem c9_chunkByTokens_advances_witness :
    (["const a = 1;", "const b = 2;"] : List String) ≠ [] ∧ 1 ≤ 4 ∧
      chunkByTokens ["const a = 1;", "const b = 2;"] 10 2 1 4 ≠ [] ∧
        List.Chain' (fun a b => a.start < b.start)
          (chunkByTokens ["const a = 1;", "const b = 2;"] 10 2 1 4) :=
  ⟨by simp, by norm_num,
    c9_chunkByTokens_advances ["const a = 1;", "const b = 2;"] 10 2 1 4
      (by simp) (by norm_num)⟩

/-! ## HTTP↔stdio bridge (src/unnamed/part_003 `startMcpHttpBridge`,
lines 128-199)

The bridge registers a resolver in the `pending` map under `String(p.id)` for
every non-notification request, forwards the frame to the child and awaits
the matching stdout line; a 30 s timer deletes a still-pending entry and
rejects.  All registrations of an HTTP body happen synchronously before any
child response event runs, so `Map.set` on a duplicated key overwrites the
earlier resolver; a child response resolves and deletes the single surviving
entry.  The functions below embed the resulting request/response outcome. -/

/-- A JSON-RPC id: a number, a string, or JSON `null`. -/
inductive RpcId
  | num (n : Int)
  | str (s : String)
  | null
deriving DecidableEq, Repr

/-- An incoming JSON-RPC message; `rid = none` models an absent `id` field. -/
structure RpcReq where
  rid : Option RpcId
  method : String
deriving DecidableEq, Repr

/-- part_003 line 162: `p.id === null || typeof p.id === 'undefined'` marks a
notification. -/
def isNotification (r : RpcReq) : Bool :=
  match r.rid with
  | none => true
  | some .null => true
  | some _ => false

/-- JS `String(id)`. -/
def idKey : RpcId → String
  | .num n => toString n
  | .str s => s
  | .null => "null"

/-- A response line parsed from the child's stdout: the id it answers and the
JSON-RPC `error.code`, if any. -/
structure RpcResp where
  rid : RpcId
  errorCode : Option Int
deriving DecidableEq, Repr

/-- The pending-map keys `String(p.id)` of the non-notification requests of a
batch, in registration order (part_003 lines 168-169). -/
def nonNotifKeys (reqs : List RpcReq) : List String :=
  reqs.filterMap (fun r =>
    match r.rid with
    | none => none
    | some .null => none
    | some i => some (idKey i))

/-- The body of the HTTP response the bridge writes. -/
inductive BridgeBody
  | empty
  | single (r : RpcResp)
  | batch (rs : List RpcResp)
  | errText (msg : String)
deriving DecidableEq, Repr

/-- An HTTP response: status code and body. -/
structure HttpOut where
  status : Nat
  body : BridgeBody
deriving DecidableEq, Repr

/-- Whether a bridge response body carries a JSON-RPC error object with the
given `error.code`. -/
def bodyHasErrorCode (b : BridgeBody) (c : Int) : Bool :=
  match b with
  | .single r => r.errorCode == some c
  | .batch rs => rs.any (fun r => r.errorCode == some c)
  | _ => false

/-- part_003 lines 182-186 (single, non-array payload) with `handleOne`
(lines 161-175): a notification is forwarded and answered `204`; a request
whose key the child answers resolves to `200` with that response; a request
whose key receives no child response is rejected by the 30 s timer (which
deletes the pending entry and calls `rejectOne(new Error('timeout'))`) and
the catch at line 187 turns the rejection into `400 {"error": "timeout"}`.
`answer k` is the child's response for pending key `k` within 30 s, if any. -/
def handleSingle (r : RpcReq) (answer : String → Option RpcResp) : HttpOut :=
  match r.rid with
  | none => ⟨204, .empty⟩
  | some .null => ⟨204, .empty⟩
  | some i =>
    match answer (idKey i) with
    | some resp => ⟨200, .single resp⟩
    | none => ⟨400, .errText "timeout"⟩

/-- JS `Map.prototype.delete` on an association-list model of `pending`
(the timer body `pending.delete(key)`). -/
def erasePending (pending : List (String × Nat)) (k : String) : List (String × Nat) :=
  pending.filter (fun e => e.1 ≠ k)

/-- part_003 lines 177-181 (array payload): `Promise.all` over `handleOne`.
Derived outcome of the event semantics:
* if some key gets no child response, its 30 s timer still finds it pending
  and rejects, so `Promise.all` rejects and the catch answers
  `400 {"error": "timeout"}` — also when that key was registered twice;
* otherwise, if all keys are answered but a key is duplicated, the earlier
  registration was overwritten, the child's response resolves and deletes
  only the surviving entry, and the later timers find nothing pending — the
  earlier promise never settles and no HTTP response is ever written
  (`none`);
* otherwise every promise resolves and the filtered responses are returned
  as a `200` JSON array in batch order. -/
def handleBatch (reqs : List RpcReq) (answer : String → Option RpcResp) :
    Option HttpOut :=
  let keys := nonNotifKeys reqs
  if ∀ k ∈ keys, (answer k).isSome then
    if keys.Nodup then some ⟨200, .batch (keys.filterMap answer)⟩
    else none
  else some ⟨400, .errText "timeout"⟩

lemma filterMap_answered (answer : String → Option RpcResp)
    (hecho : ∀ k r, answer k = some r → idKey r.rid = k) :
    ∀ l : List String, (∀ k ∈ l, (answer k).isSome) →
      (l.filterMap answer).map (fun r => idKey r.rid) = l ∧
        (l.filterMap answer).length = l.length := by
  intro l
  induction l with
  | nil => intro _; simp
  | cons k t ih =>
    intro hall
    obtain ⟨r, hr⟩ := Option.isSome_iff_exists.mp (hall k (List.mem_cons_self k t))
    have ht := ih (fun x hx => hall x (List.mem_cons_of_mem k hx))
    simp only [List.filterMap_cons, hr, List.map_cons, List.length_cons]
    exact ⟨by rw [hecho k r hr, ht.1], by rw [ht.2]⟩

lemma nonNotifKeys_length (reqs : List RpcReq) :
    (nonNotifKeys reqs).length
      + (reqs.filter (fun r => isNotification r)).length = reqs.length := by
  induction reqs with
  | nil => rfl
  | cons r t ih =>
    rcases r with ⟨rid, m⟩
    rcases rid with _ | i
    · simp [nonNotifKeys, List.filter_cons, isNotification] at ih ⊢
      omega
    · rcases i with n | s | _ <;>
        · simp [nonNotifKeys, List.filter_cons, isNotification] at ih ⊢
          omega

/-- Claim C7, counterexample: a batch of two requests sharing id `"a"`, whose
every non-notification request the child answers.  The second `pending.set`
overwrites the first resolver, the single response resolves only the
survivor, the 30 s timers find nothing pending, and `Promise.all` never
settles: the bridge writes no HTTP response at all (`none`) — not the
claimed `200` with a 2-element array. -/
theorem c7_batch_duplicate_ids_hang :
    handleBatch
      [⟨some (.str "a"), "ping"⟩, ⟨some (.str "a"), "ping"⟩]
      (fun k => some ⟨.str k, none⟩) = none := by
  simp [handleBatch, nonNotifKeys, idKey]

/-- Claim C7 (amended): for every batch of N requests of which M are
notifications, whose non-notification ids have pairwise-distinct string keys
`String(id)`, and for which the stdio child answers every non-notification
key with a response echoing that id: the bridge answers `200` with a JSON
array of exactly `N - M` responses, the i-th carrying the id key of the i-th
non-notification request — hence each response id matches exactly one
request of the batch. -/
theorem c7_batch_answers_non_notifications (reqs : List RpcReq)
    (answer : String → Option RpcResp)
    (hnodup : (nonNotifKeys reqs).Nodup)
    (hans : ∀ k ∈ nonNotifKeys reqs, (answer k).isSome)
    (hecho : ∀ k r, answer k = some r → idKey r.rid = k) :
    ∃ rs : List RpcResp,
      handleBatch reqs answer = some ⟨200, .batch rs⟩ ∧
        rs.length = reqs.length - (reqs.filter (fun r => isNotification r)).length ∧
        rs.map (fun r => idKey r.rid) = nonNotifKeys reqs ∧
        ∀ r ∈ rs, (nonNotifKeys reqs).count (idKey r.rid) = 1 := by
  obtain ⟨hmap, hlen⟩ := filterMap_answered answer hecho (nonNotifKeys reqs) hans
  refine ⟨(nonNotifKeys reqs).filterMap answer, ?_, ?_, hmap, ?_⟩
  · simp only [handleBatch]
    rw [if_pos hans, if_pos hnodup]
  · rw [hlen, ← nonNotifKeys_length reqs]
    omega
  · intro r hr
    have hk : idKey r.rid ∈ nonNotifKeys reqs := by
      rw [← hmap]
      exact List.mem_map_of_mem _ hr
    exact List.count_eq_one_of_mem hnodup hk

/-- Claim C7 witness: the amended theorem applied to the concrete batch
`[{id:"a"}, {notification}, {id:"b"}]` with a child echoing every id. -/
theorem c7_batch_answers_witness :
    ∃ rs : List RpcResp,
      handleBatch
          [⟨some (.str "a"), "initialize"⟩, ⟨none, "initialized"⟩,
            ⟨some (.str "b"), "tools/list"⟩]
          (fun k => some ⟨.str k, none⟩) = some ⟨200, .batch rs⟩ ∧
        rs.length
          = ([⟨some (.str "a"), "initialize"⟩, ⟨none, "initialized"⟩,
              ⟨some (.str "b"), "tools/list"⟩] : List RpcReq).length
            - (([⟨some (.str "a"), "initialize"⟩, ⟨none, "initialized"⟩,
                ⟨some (.str "b"), "tools/list"⟩] : List RpcReq).filter
                (fun r => isNotification r)).length ∧
        rs.map (fun r => idKey r.rid)
          = nonNotifKeys [⟨some (.str "a"), "initialize"⟩, ⟨none, "initialized"⟩,
              ⟨some (.str "b"), "tools/list"⟩] ∧
        ∀ r ∈ rs,
          (nonNotifKeys [⟨some (.str "a"), "initialize"⟩, ⟨none, "initialized"⟩,
              ⟨some (.str "b"), "tools/list"⟩]).count (idKey r.rid) = 1 :=
  c7_batch_answers_non_notifications _ _
    (by decide)
    (by decide)
    (by intro k r h; cases h; rfl)

/-- Claim C8, counterexample: a non-notification request whose id gets no
child response within 30 s.  The client receives HTTP `400` with body
`{"error": "timeout"}` — a plain HTTP error, not a JSON-RPC error response
carrying code `-32000` as the claim states. -/
theorem c8_timeout_is_400_not_32000 :
    handleSingle ⟨some (.str "9"), "tools/list"⟩ (fun _ => none)
        = ⟨400, .errText "timeout"⟩ ∧
      bodyHasErrorCode
        (handleSingle ⟨some (.str "9"), "tools/list"⟩ (fun _ => none)).body
        (-32000) = false :=
  ⟨rfl, rfl⟩

/-- Claim C8 (amended): for every non-notification request whose id receives
no matching child response within 30 seconds, the pending entry is removed
(the timer's `pending.delete(key)`), and the client receives an HTTP `400`
response whose body is `{"error": "timeout"}` — which carries no JSON-RPC
error code `-32000`. -/
theorem c8_timeout_removes_pending_and_yields_400 (r : RpcReq) (i : RpcId)
    (answer : String → Option RpcResp) (pending : List (String × Nat))
    (hid : r.rid = some i) (hnn : i ≠ .null) (hto : answer (idKey i) = none) :
    handleSingle r answer = ⟨400, .errText "timeout"⟩ ∧
      bodyHasErrorCode (handleSingle r answer).body (-32000) = false ∧
      ∀ e ∈ erasePending pending (idKey i), e.1 ≠ idKey i := by
  rcases r with ⟨rid, m⟩
  cases hid
  have h1 : handleSingle ⟨some i, m⟩ answer = ⟨400, .errText "timeout"⟩ := by
    rcases i with n | s | _
    · simp [handleSingle, idKey] at hto ⊢
      rw [hto]
    · simp [handleSingle, idKey] at hto ⊢
      rw [hto]
    · exact absurd rfl hnn
  refine ⟨h1, by rw [h1]; rfl, ?_⟩
  intro e he
  have := List.of_mem_filter he
  simpa using this

/-- Claim C8 witness: the amended theorem applied to a concrete request with
id `"7"`, a child that never answers, and a pending map holding that key. -/
theorem c8_timeout_removes_pending_witness :
    handleSingle ⟨some (.str "7"), "search_code"⟩ (fun _ => none)
        = ⟨400, .errText "timeout"⟩ ∧
      bodyHasErrorCode
        (handleSingle ⟨some (.str "7"), "search_code"⟩ (fun _ => none)).body
        (-32000) = false ∧
      ∀ e ∈ erasePending [("7", 0)] (idKey (.str "7")), e.1 ≠ idKey (.str "7") :=
  c8_timeout_removes_pending_and_yields_400 ⟨some (.str "7"), "search_code"⟩
    (.str "7") (fun _ => none) [("7", 0)] rfl (by decide) rfl

/-! ## Fallback in-process engine
(packages/mcp-server/src/launch_mcp.ts `startLocalNodeEngine`, lines 75-123) -/

/-- A `semantic_entries.json` row, restricted to the fields the `/search`
handler reads. -/
structure EngineEntry where
  id : String
  file : String
  symbol : String
  startLine : Nat
  endLine : Nat
  text : String
deriving DecidableEq, Repr

/-- A `/search` result row; `score` is the token-frequency count. -/
structure EngineResult where
  file : String
  symbol : String
  startLine : Nat
  endLine : Nat
  score : Nat
  snippet : String
deriving DecidableEq, Repr

/-- JS `text.split(t).length - 1` for non-empty `t`: the number of
non-overlapping occurrences of `t`, scanning left to right.  Fuel-structural;
fuel `hay.length` is enough because every step consumes at least one char. -/
def countOccAux (pat : List Char) : Nat → List Char → Nat
  | 0, _ => 0
  | _ + 1, [] => 0
  | fuel + 1, c :: t =>
    if pat.isPrefixOf (c :: t) then 1 + countOccAux pat fuel ((c :: t).drop pat.length)
    else countOccAux pat fuel t

/-- Occurrence count of `pat` in `text` (JS `split`/`length - 1`). -/
def countOcc (text pat : List Char) : Nat := countOccAux pat text.length text

/-- launch_mcp.ts lines 98-107: `score` starts at 0 and, when the lower-cased
query is non-empty, adds the occurrence count of every whitespace-separated
query token in the lower-cased entry text. -/
def engineScore (qLower : List Char) (text : String) : Nat :=
  if qLower = [] then 0
  else
    ((splitChars isJsWs qLower).filter (· ≠ [])).foldl
      (fun acc t => acc + countOcc (text.data.map Char.toLower) t) 0

/-- launch_mcp.ts lines 93-111: the `/search` route.  `topkNum` is the value
of JS `Number(url.searchParams.get('top_k') || '5')`: `some n` when the
parameter (or its default `'5'`) parses as a number, `none` for `NaN`.
`Math.max(1, Math.min(50, NaN))` is `NaN` and `Array.slice(0, NaN)` is empty,
so the `NaN` case returns no rows. -/
def localSearch (entries : List EngineEntry) (q : String) (topkNum : Option Int) :
    List EngineResult :=
  let qLower := q.data.map Char.toLower
  let scored := entries.map (fun e =>
    ⟨e.file, e.symbol, e.startLine, e.endLine, engineScore qLower e.text,
      String.mk (e.text.data.take 200)⟩)
  let sorted := sortDescBy (fun r => r.score) scored
  match topkNum with
  | none => []
  | some n => sorted.take (max 1 (min 50 n)).toNat

/-- Claim C10, counterexample: a `/search` request whose `top_k` does not
parse as a number (e.g. `top_k=abc`, `Number` gives `NaN`) returns an empty
result list even though the entry store is non-empty — the clamp to `[1, 50]`
never happens on the `NaN` path, violating "at least min(1, number of
entries)". -/
theorem c10_nan_topk_returns_empty :
    localSearch [⟨"i", "f", "s", 1, 2, "hello"⟩] "hello" none = [] ∧
      ([⟨"i", "f", "s", 1, 2, "hello"⟩] : List EngineEntry) ≠ [] :=
  ⟨rfl, by simp⟩

/-- Claim C10 (amended): for every `/search` request whose `top_k` parses as
a number `n` (an absent parameter defaults to `'5'`), the count is clamped to
`[1, 50]` before slicing: the engine returns at least `min(1, #entries)` and
never more than 50 results; every returned snippet is truncated to at most
200 characters.  (When `top_k` is `NaN` the result list is empty instead.) -/
theorem c10_localSearch_clamped (entries : List EngineEntry) (q : String) (n : Int) :
    (localSearch entries q (some n)).length ≤ 50 ∧
      (entries ≠ [] → 1 ≤ (localSearch entries q (some n)).length) ∧
      ∀ r ∈ localSearch entries q (some n), r.snippet.length ≤ 200 := by
  have hdef : localSearch entries q (some n)
      = (sortDescBy (fun r => r.score)
          (entries.map (fun e =>
            ⟨e.file, e.symbol, e.startLine, e.endLine,
              engineScore (q.data.map Char.toLower) e.text,
              String.mk (e.text.data.take 200)⟩))).take (max 1 (min 50 n)).toNat := rfl
  have hslen : (sortDescBy (fun r : EngineResult => r.score)
      (entries.map (fun e =>
        ⟨e.file, e.symbol, e.startLine, e.endLine,
          engineScore (q.data.map Char.toLower) e.text,
          String.mk (e.text.data.take 200)⟩))).length = entries.length := by
    rw [sortDescBy_length, List.length_map]
  refine ⟨?_, ?_, ?_⟩
  · rw [hdef, List.length_take]
    have : (max 1 (min 50 n)).toNat ≤ 50 := by omega
    omega
  · intro hne
    rw [hdef, List.length_take, hslen]
    have h1 : 1 ≤ (max 1 (min 50 n)).toNat := by omega
    have h2 : 1 ≤ entries.length := by
      cases entries with
      | nil => exact absurd rfl hne
      | cons a l => simp
    omega
  · intro r hr
    rw [hdef] at hr
    have hr2 := List.mem_of_mem_take hr
    have hr3 := (sortDescBy_perm (fun r : EngineResult => r.score) _).mem_iff.mp hr2
    obtain ⟨e, -, he⟩ := List.mem_map.mp hr3
    have : r.snippet = String.mk (e.text.data.take 200) := by rw [← he]
    rw [this]
    show (e.text.data.take 200).length ≤ 200
    rw [List.length_take]
    omega

/-- Claim C10 witness: the amended theorem applied to one concrete entry,
query `"hello"`, and a parsed `top_k = 99`. -/
theorem c10_localSearch_clamped_witness :
    (localSearch [⟨"i", "f", "s", 1, 2, "hello world"⟩] "hello" (some 99)).length ≤ 50 ∧
      1 ≤ (localSearch [⟨"i", "f", "s", 1, 2, "hello world"⟩] "hello" (some 99)).length ∧
      ∀ r ∈ localSearch [⟨"i", "f", "s", 1, 2, "hello world"⟩] "hello" (some 99),
        r.snippet.length ≤ 200 := by
  have h := c10_localSearch_clamped [⟨"i", "f", "s", 1, 2, "hello world"⟩] "hello" 99
  exact ⟨h.1, h.2.1 (by simp), h.2.2⟩

/-! ## Incremental indexer (src/unnamed/part_005 `runIndexer`)

Only the per-file fileMeta/semanticEntry accumulation (lines 209-293) is
embedded; edge derivation, JSON/sqlite writing and the ANN sink are outside
claim C5. -/

/-- shared `SymbolMeta` (the `kind` union is kept as its string value). -/
structure SymbolMeta where
  name : String
  kind : String
  file : String
  startLine : Nat
  endLine : Nat
deriving DecidableEq, Repr

/-- A JSON metadata object: an association list with unique keys (the scalar
values are kept as strings). -/
abbrev Metadata := List (String × String)

/-- part_005 `mergeMetadata` (lines 157-159), i.e. the JS object spread
`{...base, ...updates}` on unique-key objects: base keys keep their
positions (updated values win), new update keys are appended. -/
def mergeMetadata (base updates : Metadata) : Metadata :=
  base.map (fun p =>
    match updates.find? (fun q => q.1 = p.1) with
    | some q => (p.1, q.2)
    | none => p)
  ++ updates.filter (fun q => !(base.any (fun p => p.1 = q.1)))

/-- shared `FileMeta` (`namespace` is a Lean keyword, the field is `ns`;
`mtimeMs` is optional in the shared schema). -/
structure FileMeta where
  path : String
  content : String
  symbols : List SymbolMeta
  ns : Option String
  tenant : Option String
  metadata : Metadata
  mtimeMs : Option Int
deriving DecidableEq, Repr

/-- shared `SemanticEntry`. -/
structure SemanticEntry where
  id : String
  file : String
  symbol : String
  startLine : Nat
  endLine : Nat
  text : String
  ns : Option String
  tenant : Option String
  metadata : Metadata
deriving DecidableEq, Repr

/-- part_005 `IndexingMode`. -/
inductive IndexingMode
  | full
  | incremental
deriving DecidableEq, Repr

/-- A source file as seen by the per-file loop (lines 235-273): relative
path, full text, freshly parsed symbols, and the stat mtime. -/
structure ScannedFile where
  relativePath : String
  content : String
  symbols : List SymbolMeta
  mtimeMs : Int
deriving DecidableEq, Repr

/-- Strip one trailing `'\r'` (the `\r?` of the line-split regex). -/
def stripCr (l : List Char) : List Char :=
  match l.getLast? with
  | some '\r' => l.dropLast
  | _ => l

/-- JS `content.split(/\r?\n/)`: split on `'\n'`, then strip one trailing
`'\r'` from each piece. -/
def splitLines (content : String) : List String :=
  (splitChars (fun c => c = '\n') content.data).map (fun l => String.mk (stripCr l))

/-- part_005 `createSemanticEntries` (lines 174-193); symbol line numbers are
1-based (`slice(startLine - 1, endLine)`). -/
def createSemanticEntries (fm : FileMeta) : List SemanticEntry :=
  let lines := splitLines fm.content
  fm.symbols.map (fun sym =>
    { id := fm.path ++ ":" ++ sym.name
      file := fm.path
      symbol := sym.name
      startLine := sym.startLine
      endLine := sym.endLine
      text := String.intercalate "\n"
        ((lines.drop (sym.startLine - 1)).take (sym.endLine - (sym.startLine - 1)))
      ns := fm.ns
      tenant := fm.tenant
      metadata := mergeMetadata fm.metadata [("symbolKind", sym.kind)] })

/-- part_005 `updateEntriesFromPrevious` (lines 161-172): previous entries
are kept verbatim except that namespace and tenant are replaced and the
metadata is spread with the file's metadata.  (The `!previous → []` branch is
the map over the empty group.) -/
def updateEntriesFromPrevious (previous : List SemanticEntry) (fm : FileMeta) :
    List SemanticEntry :=
  previous.map (fun e =>
    { e with
      ns := fm.ns
      tenant := fm.tenant
      metadata := mergeMetadata e.metadata fm.metadata })

/-- part_005 lines 262-273: the FileMeta built for a scanned file in the
current pass (`mergeMetadata({language, path}, {})`). -/
def mkFileMeta (ns tenant : Option String) (sf : ScannedFile) : FileMeta :=
  { path := sf.relativePath
    content := sf.content
    symbols := sf.symbols
    ns := ns
    tenant := tenant
    metadata := mergeMetadata [("language", "typescript"), ("path", sf.relativePath)] []
    mtimeMs := some sf.mtimeMs }

/-- JS `new Map(pairs).get(k)`: later pairs win. -/
def jsMapGet (l : List (String × FileMeta)) (k : String) : Option FileMeta :=
  (l.reverse.find? (fun p => p.1 = k)).map (fun p => p.2)

/-- `prevEntryMap.get(p)` (lines 228-233): the previous entries of file `p`
in their original order. -/
def entriesFor (prevEntries : List SemanticEntry) (p : String) : List SemanticEntry :=
  prevEntries.filter (fun e => e.file = p)

/-- part_005 line 281, `{...previous, ...fileMeta}`: every `FileMeta` key is
present on `fileMeta` (the optional ones as explicit `undefined`, which still
overrides under JS spread), so the merge is just `fileMeta` — in particular
the freshly parsed `symbols` replace the previous ones. -/
def spreadFileMeta (_previous current : FileMeta) : FileMeta := current

/-- part_005 lines 275-289: the body of the per-file loop.  `none` when the
metadata filter rejects the file (`continue`), otherwise the FileMeta and the
SemanticEntries appended for this file. -/
def processFile (mode : IndexingMode) (ns tenant : Option String)
    (mfilter : Option (FileMeta → Bool)) (prevFiles : List FileMeta)
    (prevEntries : List SemanticEntry) (sf : ScannedFile) :
    Option (FileMeta × List SemanticEntry) :=
  let fm := mkFileMeta ns tenant sf
  if (match mfilter with | none => true | some f => f fm) = false then none
  else
    match mode, jsMapGet (prevFiles.map (fun f => (f.path, f))) sf.relativePath with
    | .incremental, some p =>
      if p.mtimeMs == some sf.mtimeMs then
        some (spreadFileMeta p fm,
          updateEntriesFromPrevious (entriesFor prevEntries sf.relativePath) fm)
      else some (fm, createSemanticEntries fm)
    | _, _ => some (fm, createSemanticEntries fm)

/-- part_005 lines 209-289: the fileMeta/semanticEntry accumulation over the
scanned files. -/
def runIndexerCore (mode : IndexingMode) (ns tenant : Option String)
    (mfilter : Option (FileMeta → Bool)) (scanned : List ScannedFile)
    (prevFiles : List FileMeta) (prevEntries : List SemanticEntry) :
    List FileMeta × List SemanticEntry :=
  scanned.foldl (fun acc sf =>
    match processFile mode ns tenant mfilter prevFiles prevEntries sf with
    | none => acc
    | some (fm, es) => (acc.1 ++ [fm], acc.2 ++ es)) ([], [])

/-- Previous-pass fixture for the C5 counterexample: file `a.ts` recorded at
mtime 5 with symbol `oldName`. -/
def c5PrevFile : FileMeta :=
  ⟨"a.ts", "old", [⟨"oldName", "function", "/abs/a.ts", 1, 1⟩], none, none, [], some 5⟩

/-- Previous-pass semantic entry fixture for the C5 counterexample. -/
def c5PrevEntry : SemanticEntry :=
  ⟨"a.ts:oldName", "a.ts", "oldName", 1, 1, "old", none, none, []⟩

/-- Current-pass fixture for the C5 counterexample: same path, same mtime 5,
but the fresh parse yields symbol `newName` (mtime equality does not imply
the parse is unchanged). -/
def c5Scanned : ScannedFile :=
  ⟨"a.ts", "new content", [⟨"newName", "function", "/abs/a.ts", 1, 1⟩], 5⟩

/-- Claim C5, counterexample: in incremental mode, for a file whose current
mtime equals the recorded one, the emitted FileMeta carries the FRESHLY
PARSED symbols (`{...previous, ...fileMeta}` lets `fileMeta.symbols` win),
not the previous Symbols as the claim states. -/
theorem c5_previous_symbols_not_reused :
    c5PrevFile.mtimeMs = some c5Scanned.mtimeMs ∧
      (runIndexerCore .incremental none none none
          [c5Scanned] [c5PrevFile] [c5PrevEntry]).1.map (fun f => f.symbols)
        = [c5Scanned.symbols] ∧
      c5Scanned.symbols ≠ c5PrevFile.symbols := by
  refine ⟨rfl, by decide, by decide⟩

/-- Claim C5 (amended): in incremental mode, for every scanned file that
passes the metadata filter and whose path maps to a previous FileMeta with
equal recorded `mtimeMs`, the emitted SemanticEntry records are the previous
ones for that file reused verbatim except that namespace, tenant, and
metadata are updated (id, file, symbol, startLine, endLine, text unchanged);
the emitted FileMeta however is the freshly built current one — it carries
the freshly parsed symbols, not the previous Symbols. -/
theorem c5_incremental_reuses_entries (ns tenant : Option String)
    (mfilter : Option (FileMeta → Bool)) (prevFiles : List FileMeta)
    (prevEntries : List SemanticEntry) (sf : ScannedFile) (p : FileMeta)
    (hfilt : (match mfilter with | none => true | some f => f (mkFileMeta ns tenant sf))
      = true)
    (hprev : jsMapGet (prevFiles.map (fun f => (f.path, f))) sf.relativePath = some p)
    (hmtime : p.mtimeMs = some sf.mtimeMs) :
    processFile .incremental ns tenant mfilter prevFiles prevEntries sf
        = some (mkFileMeta ns tenant sf,
            updateEntriesFromPrevious (entriesFor prevEntries sf.relativePath)
              (mkFileMeta ns tenant sf)) ∧
      (mkFileMeta ns tenant sf).symbols = sf.symbols ∧
      (updateEntriesFromPrevious (entriesFor prevEntries sf.relativePath)
          (mkFileMeta ns tenant sf)).map
          (fun e => (e.id, e.file, e.symbol, e.startLine, e.endLine, e.text))
        = (entriesFor prevEntries sf.relativePath).map
          (fun e => (e.id, e.file, e.symbol, e.startLine, e.endLine, e.text)) ∧
      ∀ e ∈ updateEntriesFromPrevious (entriesFor prevEntries sf.relativePath)
          (mkFileMeta ns tenant sf),
        e.ns = ns ∧ e.tenant = tenant := by
  refine ⟨?_, rfl, ?_, ?_⟩
  · simp only [processFile, hfilt, hprev, hmtime, spreadFileMeta]
    simp
  · show ((entriesFor prevEntries sf.relativePath).map _).map _ = _
    rw [List.map_map]
    rfl
  · intro e he
    obtain ⟨e', -, he'⟩ := List.mem_map.mp he
    rw [← he']
    exact ⟨rfl, rfl⟩

/-- Claim C5 witness: the amended theorem applied to the concrete fixtures
(no metadata filter, path `a.ts`, matching mtime 5). -/
theorem c5_incremental_reuses_entries_witness :
    processFile .incremental none none none [c5PrevFile] [c5PrevEntry] c5Scanned
        = some (mkFileMeta none none c5Scanned,
            updateEntriesFromPrevious (entriesFor [c5PrevEntry] c5Scanned.relativePath)
              (mkFileMeta none none c5Scanned)) ∧
      (mkFileMeta none none c5Scanned).symbols = c5Scanned.symbols ∧
      (updateEntriesFromPrevious (entriesFor [c5PrevEntry] c5Scanned.relativePath)
          (mkFileMeta none none c5Scanned)).map
          (fun e => (e.id, e.file, e.symbol, e.startLine, e.endLine, e.text))
        = (entriesFor [c5PrevEntry] c5Scanned.relativePath).map
          (fun e => (e.id, e.file, e.symbol, e.startLine, e.endLine, e.text)) ∧
      ∀ e ∈ updateEntriesFromPrevious (entriesFor [c5PrevEntry] c5Scanned.relativePath)
          (mkFileMeta none none c5Scanned),
        e.ns = none ∧ e.tenant = none :=
  c5_incremental_reuses_entries none none none [c5PrevFile] [c5PrevEntry]
    c5Scanned c5PrevFile rfl (by decide) rfl

end McpRag
